import Mathlib

/-
Verification development for the PJAText2 text-analysis tool.

Shallow embedding of the repository's core:
  * PJAText2/instruction.h : Result, Output, Flag, Instruction (tokenizer)
  * PJAText2/command.h     : command registry (CommandsHolder)
  * app_commands           : BaseCommands, OperationalCommands, ModifyingCommands
  * Engine                 : two-phase validate/execute dispatch, rendering
  * file_operations        : file existence / unchecked read (modelled as a map
    from file names to optional contents)

Machine integers: usize is modelled as Nat with explicit mod 2^64 where the
code can underflow (CountChars); i32 mod values stay small and are modelled
as Int.  std::string is modelled as String (the repository only handles
ASCII command lines and text, where byte-wise and character-wise operations
agree).
-/

namespace PJAText2

/-- usize maximum; the value the Flag default constructor writes into pos.
Note the C++ default constructor has a delegation slip: the body
constructs and discards a temporary, leaving pos indeterminate in practice.
We model the intended SIZE_MAX; no theorem below depends on this value,
because the default-constructed sentinel flag can only ever appear as the
sole flag of an Instruction. -/
def SIZE_MAX : Nat := 2 ^ 64 - 1

/-- Result enum of the Output class (instruction.h). -/
inductive Result where
  | Ok
  | Err
  | Undefined
deriving DecidableEq, Repr

/-- Wrapper around a Command's result message (instruction.h). -/
structure Output where
  res : Result
  msg : String
deriving DecidableEq, Repr

/-- Output::Output() : the empty output. -/
def Output.mkEmpty : Output := ⟨Result.Undefined, ""⟩

/-- Output::new_ok. -/
def Output.new_ok (message : String) : Output := ⟨Result.Ok, message⟩

/-- Output::new_err. -/
def Output.new_err (message : String) : Output := ⟨Result.Err, message⟩

/-- Output::is_ok. -/
def Output.is_ok (o : Output) : Bool := o.res = Result.Ok

/-- Output::is_err. -/
def Output.is_err (o : Output) : Bool := o.res = Result.Err

/-- Output::is_undefined. -/
def Output.is_undefined (o : Output) : Bool := o.res = Result.Undefined

/-- Output::get_message. -/
def Output.get_message (o : Output) : String := o.msg

/-- String helper: drop the final character (std::string::pop_back). -/
def strDropLast (s : String) : String := String.mk s.toList.dropLast

/-- Flag structure of the Instruction class (instruction.h). -/
structure Flag where
  name : String
  arg : String
  pos : Nat
  mod : Int
deriving DecidableEq, Repr

/-- Flag::Flag() : the default (sentinel) flag; see the SIZE_MAX note. -/
def Flag.empty : Flag := ⟨"", "", SIZE_MAX, 0⟩

/-- Flag::is_empty : the argument was not provided. -/
def Flag.is_empty (f : Flag) : Bool := f.arg = ""

/-- Flag::exists : the flag has a name. -/
def Flag.exists_ (f : Flag) : Bool := f.name ≠ ""

/-- Flag::parse : removes the tailing white space character from the
argument (pop_back on a non-empty argument). -/
def Flag.parse (f : Flag) : Flag :=
  if f.arg = "" then f else { f with arg := strDropLast f.arg }

/-- Flag::name_in : membership of the flag name in a list of names. -/
def Flag.name_in (f : Flag) (names : List String) : Bool :=
  names.any (fun name_outer => f.name = name_outer)

/-- A token is classified as a flag token iff `arg.rfind("-", 0) == 0`,
i.e. the token begins with the character '-'. -/
def isFlagToken (s : String) : Bool := s.toList.head? = some '-'

/-- Class for parsing and holding the raw arguments as Flag objects. -/
structure Instruction where
  flags : List Flag
deriving DecidableEq, Repr

/-- Loop body of Instruction::from_vec_string.  `position` is the running
flag counter, `flag` the current flag under construction, `flags` the
accumulator.  The final token (when non-empty: empty tokens `continue` past
the end-of-input check) triggers `flag.parse(); flags.push_back(flag)`
regardless of whether the current flag has a name. -/
def fvsGo (position : Nat) (flag : Flag) (flags : List Flag) :
    List String → List Flag
  | [] => flags
  | arg :: rest =>
    if arg = "" then fvsGo position flag flags rest
    else if isFlagToken arg then
      let pushed := if flag.exists_ then flags ++ [flag.parse] else flags
      let newFlag : Flag := { name := arg, arg := "", pos := position, mod := 0 }
      if rest = [] then pushed ++ [newFlag.parse]
      else fvsGo (position + 1) newFlag pushed rest
    else
      let flag' := if flag.exists_ then { flag with arg := flag.arg ++ arg ++ " " } else flag
      if rest = [] then flags ++ [flag'.parse]
      else fvsGo position flag' flags rest

/-- Instruction::from_vec_string. -/
def Instruction.from_vec_string (vec_s : List String) : Instruction :=
  ⟨fvsGo 0 Flag.empty [] vec_s⟩

/-- Instruction::get_flag(usize) : first flag whose pos field equals the index. -/
def Instruction.get_flag_pos (inst : Instruction) (index : Nat) : Option Flag :=
  inst.flags.find? (fun flag => flag.pos = index)

/-- Instruction::flag_exists : some flag is named `caller` or `alias`. -/
def Instruction.flag_exists (inst : Instruction) (caller al : String) : Bool :=
  inst.flags.any (fun flag => flag.name = caller ∨ flag.name = al)

/-- Instruction::size. -/
def Instruction.size (inst : Instruction) : Nat := inst.flags.length

/-- Helper list update: set mod := 1 on the first flag with the given pos
(models `inst.get_flag_ptr(p)->mod = 1`, a write through the pointer
returned by Instruction::get_flag_ptr). -/
def setModFirst : List Flag → Nat → List Flag
  | [], _ => []
  | f :: fs, p => if f.pos = p then { f with mod := 1 } :: fs else f :: setModFirst fs p

/-- Mod-write on an Instruction (ModifyingCommands mutate a sibling flag in
place through get_flag_ptr). -/
def Instruction.setMod (inst : Instruction) (p : Nat) : Instruction :=
  ⟨setModFirst inst.flags p⟩

/-- Operations: the functional run-state structure shared with all commands. -/
structure Operations where
  file_in : String
  file_out : String
  source : String
  is_panicked : Bool
deriving DecidableEq, Repr

/-- Operations() : default-initialized run state. -/
def initOperations : Operations := ⟨"", "", "", false⟩

/-- The Engine's per-run mutable members: the Outputs vector and Operations. -/
structure EngineState where
  outputs : List Output
  operations : Operations
deriving DecidableEq, Repr

/-- Engine state after Engine::clear (also the state of a fresh Engine). -/
def freshEngineState : EngineState := ⟨[], initOperations⟩

/-- External file system collaborator: maps a file name to its contents when
the file exists. -/
def FileModel : Type := String → Option String

/-- File::exists. -/
def fileExists (fm : FileModel) (file_name : String) : Bool := (fm file_name).isSome

/-- File::read_unchecked : the do/while-getline loop reproduces the file
contents with exactly one extra trailing newline appended (getline strips
each newline and the loop re-appends one per iteration, including the final
iteration that hits end-of-file). -/
def read_unchecked (fm : FileModel) (file_name : String) : String :=
  ((fm file_name).getD "") ++ "\n"

/-- File::get_size : byte size of the file contents (ASCII). -/
def fileSize (fm : FileModel) (file_name : String) : Nat :=
  ((fm file_name).getD "").length

/-- Whitespace for the std::regex character class backslash-s. -/
def isWsChar (c : Char) : Bool :=
  c = ' ' || c = '\t' || c = '\n' || c = '\x0d' || c = '\x0b' || c = '\x0c'

/-- Word characters for the std::regex class backslash-w ([A-Za-z0-9_]). -/
def isWordChar (c : Char) : Bool := c.isAlpha || c.isDigit || c = '_'

/-- Accumulating scanner behind Regex::get_words. -/
def getWordsGo : List Char → List Char → List String
  | [], acc => if acc = [] then [] else [String.mk acc.reverse]
  | c :: rest, acc =>
    if isWsChar c then
      if acc = [] then getWordsGo rest []
      else String.mk acc.reverse :: getWordsGo rest []
    else getWordsGo rest (c :: acc)

/-- Regex::get_words : the regex "(?!\s)[\S]+" collects the maximal runs of
non-whitespace characters of the target, left to right. -/
def get_words (target : String) : List String := getWordsGo target.toList []

/-- Scanner equivalent of counting matches of the CountNumbers regex
"(^|\s)[0-9]+(?!\w)" : a match is a maximal digit run that starts at the
beginning of the string or after a whitespace character and whose following
character (if any) is not a word character (greedy [0-9]+ with the negative
lookahead rejects the whole run when a word character follows, because every
shorter split leaves a digit under the lookahead). -/
def countNumbersGo : List Char → Bool → Nat
  | [], _ => 0
  | c :: rest, boundary =>
    if boundary && c.isDigit then
      let run := rest.takeWhile Char.isDigit
      let after := rest.drop run.length
      (match after.head? with
       | none => 1
       | some a => if isWordChar a then 0 else 1) + countNumbersGo after false
    else countNumbersGo rest (isWsChar c)
termination_by l _ => l.length
decreasing_by
  · simp only [List.length_drop, List.length_cons]
    omega
  · simp only [List.length_cons]
    omega

/-- Regex::count_matches specialised to the CountNumbers regex. -/
def count_numbers (target : String) : Nat := countNumbersGo target.toList true

/-- CountDigits::is_digit : std::find over the digits array. -/
def is_digit (ch : Char) : Bool :=
  (['0', '1', '2', '3', '4', '5', '6', '7', '8', '9']).any (fun d => d = ch)

/-- Insertion step for the sorting model. -/
def insertSorted {α : Type} (comp : α → α → Bool) (x : α) : List α → List α
  | [] => [x]
  | y :: ys => if comp x y then x :: y :: ys else y :: insertSorted comp x ys

/-- Sorting model for std::sort with a strict comparator.  std::sort leaves
the relative order of comparator-equivalent elements unspecified; this model
is deterministic, and every theorem below that inspects a sorted result uses
inputs whose sort keys are pairwise distinct, where the result is unique. -/
def sortWith {α : Type} (comp : α → α → Bool) : List α → List α
  | [] => []
  | x :: xs => insertSorted comp x (sortWith comp xs)

/-- Comparators::get_default : lexicographic, or by .size() when as_size. -/
def comparator_default (as_size : Bool) : String → String → Bool :=
  if as_size then fun left right => decide (left.length < right.length)
  else fun left right => decide (left < right)

/-- Comparators::get_reverse : reversed lexicographic, or by .size(). -/
def comparator_reverse (as_size : Bool) : String → String → Bool :=
  if as_size then fun left right => decide (right.length < left.length)
  else fun left right => decide (right < left)

/-- Strings::are_anagrams : equal length and equal sorted character lists. -/
def are_anagrams (first second : String) : Bool :=
  if first.length ≠ second.length then false
  else sortWith (fun a b => decide (a < b)) first.toList
         = sortWith (fun a b => decide (a < b)) second.toList

/-- Strings::are_palindromes : equal length and the second reversed equals
the first. -/
def are_palindromes (first second : String) : Bool :=
  if first.length ≠ second.length then false
  else first.toList = second.toList.reverse

/-- The nested collection loops of ShowAnagrams / ShowPalindromes: for every
source word (outer, in order) one copy is pushed per related flag word. -/
def collectMatches (rel : String → String → Bool) (ws vs : List String) : List String :=
  ws.foldr (fun first acc => (vs.filter (fun second => rel first second)).map (fun _ => first) ++ acc) []

/-- std::unique: drop consecutive duplicate entries, keeping the first. -/
def dedupConsecutive : List String → List String
  | [] => []
  | [x] => [x]
  | x :: y :: rest =>
    if x = y then dedupConsecutive (x :: rest) else x :: dedupConsecutive (y :: rest)
termination_by l => l.length

/-- Info::flag_string_stream : the "<name> " prefix all command messages use. -/
def flag_string_stream (flag : Flag) : String := "<" ++ flag.name ++ "> "

/-- Info::flag_string_stream_structure : the braces-delimited word list. -/
def flag_string_stream_structure (flag : Flag) (collection : List String) : String :=
  if collection = [] then flag_string_stream flag ++ "\x7b \x7d"
  else
    flag_string_stream flag ++ "\x7b\n"
      ++ String.join (collection.map (fun word => "    \"" ++ word ++ "\",\n"))
      ++ "\x7d"

/-- The commands registered in create_engine: the three BaseCommands added by
the Engine constructor followed by the operational and modifying commands in
Engine::add order. -/
inductive Cmd where
  | sourceFile
  | inputFile
  | outputFile
  | countChars
  | countDigits
  | countLines
  | countNumbers
  | countWords
  | showAnagrams
  | showFileSize
  | showPalindromes
  | showWords
  | showWordsReverse
  | wordsConsiderLength
deriving DecidableEq, Repr

/-- caller() of each command. -/
def Cmd.caller : Cmd → String
  | .sourceFile => "-f"
  | .inputFile => "-i"
  | .outputFile => "-o"
  | .countChars => "-c"
  | .countDigits => "-d"
  | .countLines => "-n"
  | .countNumbers => "-dd"
  | .countWords => "-w"
  | .showAnagrams => "-a"
  | .showFileSize => "-si"
  | .showPalindromes => "-p"
  | .showWords => "-s"
  | .showWordsReverse => "-rs"
  | .wordsConsiderLength => "-l"

/-- alias() of each command. -/
def Cmd.aliasName : Cmd → String
  | .sourceFile => "--file"
  | .inputFile => "--input"
  | .outputFile => "--output"
  | .countChars => "--chars"
  | .countDigits => "--digits"
  | .countLines => "--newlines"
  | .countNumbers => "--numbers"
  | .countWords => "--words"
  | .showAnagrams => "--anagrams"
  | .showFileSize => "--size"
  | .showPalindromes => "--palindromes"
  | .showWords => "--sorted"
  | .showWordsReverse => "--reverse-sorted"
  | .wordsConsiderLength => "--by-length"

/-- The CommandsHolder contents in insertion order.  All fourteen callers
are pairwise distinct and likewise all aliases, so CommandsHolder::exists
never suppresses a registration and the unordered-map scans of
get_by_caller / get_by_alias are order-independent. -/
def registryCmds : List Cmd :=
  [.sourceFile, .inputFile, .outputFile,
   .countChars, .countDigits, .countLines, .countNumbers, .countWords,
   .showAnagrams, .showFileSize, .showPalindromes, .showWords,
   .showWordsReverse, .wordsConsiderLength]

/-- Engine resolution of a flag name: get_by_caller first, then get_by_alias. -/
def resolve (name : String) : Option Cmd :=
  match registryCmds.find? (fun c => c.caller = name) with
  | some c => some c
  | none => registryCmds.find? (fun c => c.aliasName = name)

/-- validate() of each command (app_commands).  Returns the Output together
with the possibly mutated Instruction (ModifyingCommands write a sibling
flag's mod) and Operations. -/
def cmdValidate (c : Cmd) (fm : FileModel) (flag : Flag) (inst : Instruction)
    (ops : Operations) : Output × Instruction × Operations :=
  match c with
  | .sourceFile =>
    if flag.arg = "" then
      (Output.new_err (flag_string_stream flag ++ "This flag requires an argument!"), inst, ops)
    else if fileExists fm flag.arg = false then
      (Output.new_err (flag_string_stream flag ++ "Provided file doesn't exists!"), inst, ops)
    else
      (Output.new_ok "", inst,
       { ops with file_in := flag.arg, source := read_unchecked fm flag.arg })
  | .outputFile =>
    if flag.arg = "" then
      (Output.new_err (flag_string_stream flag ++ "This flag requires an argument!"), inst, ops)
    else
      (Output.new_ok "", inst, { ops with file_out := flag.arg })
  | .showAnagrams =>
    if (inst.get_flag_pos (flag.pos + 1)).isSome then
      (Output.new_err (flag_string_stream flag ++ "This flag should be the last one"), inst, ops)
    else if flag.arg = "" then
      (Output.new_err (flag_string_stream flag ++ "This flag requires an argument!"), inst, ops)
    else (Output.new_ok "", inst, ops)
  | .showPalindromes =>
    if (inst.get_flag_pos (flag.pos + 1)).isSome then
      (Output.new_err (flag_string_stream flag ++ "This flag should be the last one"), inst, ops)
    else if flag.arg = "" then
      (Output.new_err (flag_string_stream flag ++ "This flag requires an argument!"), inst, ops)
    else (Output.new_ok "", inst, ops)
  | .wordsConsiderLength =>
    match inst.get_flag_pos (flag.pos + 1) with
    | none =>
      (Output.new_err (flag_string_stream flag ++ "This flag can't be the last one!"), inst, ops)
    | some flag_after =>
      if flag_after.name_in ["-l", "--by-length"] then (Output.new_ok "", inst, ops)
      else if flag_after.name_in ["-rs", "--reverse-sorted", "-s", "--sorted"] = false then
        (Output.new_err (flag_string_stream flag ++ "Missing required flag after this one!"), inst, ops)
      else (Output.new_ok "", inst.setMod (flag.pos + 1), ops)
  | _ => (Output.new_ok "", inst, ops)

/-- ShowFileSize unit-scaling loop: divide by 1000 while at least 1000,
stopping at the first unit that fits (empty unit when all four are passed). -/
def sizeScaleLoop : List String → Rat → Rat × String
  | [], size => (size, "")
  | u :: rest, size =>
    if 1000 ≤ size then sizeScaleLoop rest (size / 1000) else (size, u)

/-- execute() of each command (app_commands).  CountChars prints
source.length() - 1 where length() is usize, hence the explicit mod 2^64
underflow model.  ShowFileSize uses f32 arithmetic and iostream float
formatting in the C++; it is modelled with exact rationals and the default
Rat printer (no claim exercises the -si command). -/
def cmdExecute (c : Cmd) (fm : FileModel) (flag : Flag) (ops : Operations) : Output :=
  match c with
  | .countLines =>
    Output.new_ok (flag_string_stream flag ++ "New lines: "
      ++ toString (ops.source.toList.count '\n'))
  | .countDigits =>
    Output.new_ok (flag_string_stream flag ++ "Digits: "
      ++ toString (ops.source.toList.countP is_digit))
  | .countNumbers =>
    Output.new_ok (flag_string_stream flag ++ "Numbers: "
      ++ toString (count_numbers ops.source))
  | .countChars =>
    Output.new_ok (flag_string_stream flag ++ "Chars: "
      ++ toString ((ops.source.length + (2 ^ 64 - 1)) % 2 ^ 64))
  | .countWords =>
    Output.new_ok (flag_string_stream flag ++ "Words: "
      ++ toString (get_words ops.source).length)
  | .showAnagrams =>
    Output.new_ok (flag_string_stream_structure flag
      (dedupConsecutive (collectMatches are_anagrams (get_words ops.source) (get_words flag.arg))))
  | .showPalindromes =>
    Output.new_ok (flag_string_stream_structure flag
      (dedupConsecutive (collectMatches are_palindromes (get_words ops.source) (get_words flag.arg))))
  | .showWords =>
    Output.new_ok (flag_string_stream_structure flag
      (sortWith (comparator_default (decide (flag.mod = 1))) (get_words ops.source)))
  | .showWordsReverse =>
    Output.new_ok (flag_string_stream_structure flag
      (sortWith (comparator_reverse (decide (flag.mod = 1))) (get_words ops.source)))
  | .showFileSize =>
    let size0 : Rat := (fileSize fm ops.file_in : Nat)
    let scaled := sizeScaleLoop ["B", "KB", "MB", "GB"] size0
    let size_rounding : Int := Int.floor (scaled.1 * 100 + 1 / 2)
    Output.new_ok (flag_string_stream flag ++ toString ((size_rounding : Rat) / 100)
      ++ " " ++ scaled.2)
  | _ => Output.new_ok ""

/-- The validated_commands map: HashMap<Command*, Flag> assignment replaces
the value of an existing key and otherwise inserts.  The C++ map is a
std::unordered_map whose iteration order is unspecified; this model keeps
first-insertion order.  Every theorem below that inspects an execution-pass
report has at most one non-empty execute Output, so the modelled order never
shows in a proved statement. -/
def updateValidated (v : List (Cmd × Flag)) (c : Cmd) (f : Flag) : List (Cmd × Flag) :=
  if v.any (fun p => p.1 = c) then v.map (fun p => if p.1 = c then (c, f) else p)
  else v ++ [(c, f)]

/-- Lookup in the validated_commands map. -/
def lookupValidated (v : List (Cmd × Flag)) (c : Cmd) : Option Flag :=
  (v.find? (fun p => p.1 = c)).map (fun p => p.2)

/-- The Engine validation loop (Engine::execute, resolution + validation
pass): iterate the instruction's flag vector by index (the C++ range-for
copies each element when it is reached, so mod writes by earlier flags are
visible); on an unresolvable name push the Invalid-flag error, panic and
stop; on a validate error push it, panic and stop; on success record the
(command, flag copy) pair and continue. -/
def validateLoop (fm : FileModel) :
    Nat → Nat → Instruction → Operations → List Output → List (Cmd × Flag) →
    List Output × Operations × List (Cmd × Flag)
  | 0, _, _, ops, outs, validated => (outs, ops, validated)
  | fuel + 1, i, inst, ops, outs, validated =>
    match inst.flags.get? i with
    | none => (outs, ops, validated)
    | some flag =>
      match resolve flag.name with
      | none =>
        (outs ++ [Output.new_err ("<ENGINE> Invalid flag: [" ++ flag.name ++ "]")],
         { ops with is_panicked := true }, validated)
      | some c =>
        let r := cmdValidate c fm flag inst ops
        if r.1.is_err then
          (outs ++ [r.1], { r.2.2 with is_panicked := true }, validated)
        else
          validateLoop fm fuel (i + 1) r.2.1 r.2.2 outs (updateValidated validated c flag)

/-- The Engine execution pass: run execute for each validated pair, keeping
non-empty Outputs. -/
def execLoop (fm : FileModel) (ops : Operations) :
    List Output → List (Cmd × Flag) → List Output
  | outs, [] => outs
  | outs, (c, f) :: rest =>
    let out := cmdExecute c fm f ops
    execLoop fm ops (if out.msg = "" then outs else outs ++ [out]) rest

/-- Rendering loop of Engine::grab_output: skip empty messages; label Ok
outputs "[SUCCESS]" and every other output "[ERROR]". -/
def renderOutputs : List Output → String
  | [] => ""
  | output :: rest =>
    (if output.get_message = "" then ""
     else (if output.is_ok then "[SUCCESS]" else "[ERROR]") ++ ": "
            ++ output.get_message ++ "\n")
    ++ renderOutputs rest

/-- Engine::grab_output: render the outputs; when an output file is set the
report is written there (a file-system effect outside this model) and the
empty string is returned without clearing; otherwise the report is returned
and the Engine is cleared. -/
def grabOutput (st : EngineState) : String × EngineState :=
  let output_stream := renderOutputs st.outputs
  if st.operations.file_out ≠ "" then ("", st)
  else (output_stream, freshEngineState)

/-- The input-redirection short-circuit at the top of Engine::execute:
either an abort Output, or the working Instruction for the validation pass
(possibly rebuilt from the words of the input file). -/
def engineResolveInstruction (fm : FileModel) (raw_args : List String) :
    Except Output Instruction :=
  let inst := Instruction.from_vec_string raw_args
  if inst.flag_exists "-i" "--input" then
    if inst.size ≠ 1 then
      Except.error (Output.new_err "<ENGINE> Input file flag should be the only one!")
    else
      let flag := (inst.get_flag_pos 0).getD Flag.empty
      if flag.arg = "" then
        Except.error (Output.new_err "<ENGINE> Input file flag requires an argument!")
      else if fileExists fm flag.arg = false then
        Except.error (Output.new_err "<ENGINE> Input file flag has invalid file as an argument!")
      else
        Except.ok (Instruction.from_vec_string (get_words (read_unchecked fm flag.arg)))
  else
    Except.ok inst

/-- Engine::execute after the short-circuit: validation pass, then the
source-readiness check (line 191 of the Engine runs it regardless of the
panic flag), then either rendering (panicked) or the execution pass and
rendering. -/
def engineMain (fm : FileModel) (st : EngineState) (inst : Instruction) :
    String × EngineState :=
  let r := validateLoop fm inst.size 0 inst st.operations st.outputs []
  if r.2.1.file_in = "" ∧ r.2.1.source = "" then
    grabOutput ⟨r.1 ++ [Output.new_err "<ENGINE> Source file is invalid!"],
                { r.2.1 with is_panicked := true }⟩
  else if r.2.1.is_panicked then grabOutput ⟨r.1, r.2.1⟩
  else grabOutput ⟨execLoop fm r.2.1 r.1 r.2.2, r.2.1⟩

/-- Engine::execute. -/
def engineExecute (fm : FileModel) (st : EngineState) (raw_args : List String) :
    String × EngineState :=
  match engineResolveInstruction fm raw_args with
  | Except.error e => grabOutput { st with outputs := st.outputs ++ [e] }
  | Except.ok inst => engineMain fm st inst

/-- The validated_commands map a run hands to the execution pass (empty when
the run aborts in the short-circuit). -/
def engineValidated (fm : FileModel) (st : EngineState) (raw_args : List String) :
    List (Cmd × Flag) :=
  match engineResolveInstruction fm raw_args with
  | Except.error _ => []
  | Except.ok inst => (validateLoop fm inst.size 0 inst st.operations st.outputs []).2.2

/-
Helper lemmas shared by the claim theorems.
-/

/-- A string with a non-empty left part is non-empty. -/
lemma ne_empty_append_left (s t : String) (h : s ≠ "") : s ++ t ≠ "" := by
  intro he
  apply h
  have hd := congrArg String.data he
  rw [String.data_append] at hd
  rw [show ("" : String).data = [] from rfl] at hd
  exact String.ext (by rw [(List.append_eq_nil.mp hd).1])

/-- A string with a non-empty right part is non-empty. -/
lemma ne_empty_append_right (s t : String) (h : t ≠ "") : s ++ t ≠ "" := by
  intro he
  apply h
  have hd := congrArg String.data he
  rw [String.data_append] at hd
  rw [show ("" : String).data = [] from rfl] at hd
  exact String.ext (by rw [(List.append_eq_nil.mp hd).2])

/-- Appending the empty string on the right is the identity. -/
lemma string_append_empty (s : String) : s ++ "" = s :=
  String.ext (by rw [String.data_append, show ("" : String).data = [] from rfl, List.append_nil])

/-- Prepending the empty string is the identity. -/
lemma string_empty_append (s : String) : "" ++ s = s :=
  String.ext (by rw [String.data_append]; rfl)

/-- String append is associative. -/
lemma string_append_assoc (s t u : String) : s ++ t ++ u = s ++ (t ++ u) :=
  String.ext (by simp only [String.data_append, List.append_assoc])

/-- Dropping the last character of a string that ends in a space recovers
the string. -/
lemma strDropLast_append_space (s : String) : strDropLast (s ++ " ") = s := by
  unfold strDropLast
  rw [show (s ++ " ").toList = s.data ++ [' '] from String.data_append s " ",
    List.dropLast_concat]

/-- A flag token is a non-empty string. -/
lemma isFlagToken_ne_empty (s : String) (h : isFlagToken s = true) : s ≠ "" := by
  intro he
  subst he
  simp [isFlagToken] at h

/-- Flag::parse does not change the position. -/
lemma Flag.parse_pos (f : Flag) : f.parse.pos = f.pos := by
  unfold Flag.parse; split <;> rfl

/-- Flag::parse does not change the name. -/
lemma Flag.parse_name (f : Flag) : f.parse.name = f.name := by
  unfold Flag.parse; split <;> rfl

/-- Appending one flag above every accumulated position keeps the list
strictly increasing. -/
lemma pairwise_pos_snoc (l : List Flag) (x : Flag)
    (hp : List.Pairwise (fun f g => f.pos < g.pos) l)
    (hall : ∀ g ∈ l, g.pos < x.pos) :
    List.Pairwise (fun f g => f.pos < g.pos) (l ++ [x]) := by
  refine List.pairwise_append.mpr ⟨hp, by simp, ?_⟩
  intro a ha b hb
  rw [List.mem_singleton] at hb
  subst hb
  exact hall a ha

/-- Invariant proof for the from_vec_string loop: the accumulated flags are
strictly increasing in position and all sit below the position counter, the
current flag (when it has a name) sits above all of them and directly below
the counter, and a nameless current flag only occurs while the accumulator
is empty. -/
lemma fvsGo_pairwise (xs : List String) :
    ∀ (position : Nat) (flag : Flag) (flags : List Flag),
      List.Pairwise (fun f g => f.pos < g.pos) flags →
      (∀ g ∈ flags, g.pos < position) →
      (flag.exists_ = true → flag.pos + 1 = position ∧ ∀ g ∈ flags, g.pos < flag.pos) →
      (flag.exists_ = false → flags = []) →
      List.Pairwise (fun f g => f.pos < g.pos) (fvsGo position flag flags xs) := by
  induction xs with
  | nil => intro position flag flags hp _ _ _; simpa [fvsGo] using hp
  | cons arg rest ih =>
    intro position flag flags hp hlt hex hnex
    rw [fvsGo]
    by_cases harg : arg = ""
    · simp only [if_pos harg]
      exact ih position flag flags hp hlt hex hnex
    · rw [if_neg harg]
      by_cases hft : isFlagToken arg = true
      · rw [if_pos hft]
        have hpushed :
            List.Pairwise (fun f g => f.pos < g.pos)
              (if flag.exists_ then flags ++ [flag.parse] else flags) := by
          by_cases hfe : flag.exists_ = true
          · rw [if_pos hfe]
            exact pairwise_pos_snoc flags flag.parse hp
              (by rw [Flag.parse_pos]; exact (hex hfe).2)
          · rw [if_neg hfe]; exact hp
        have hpushedlt :
            ∀ g ∈ (if flag.exists_ then flags ++ [flag.parse] else flags),
              g.pos < position := by
          by_cases hfe : flag.exists_ = true
          · rw [if_pos hfe]
            intro g hg
            rcases List.mem_append.mp hg with h1 | h1
            · exact hlt g h1
            · rw [List.mem_singleton] at h1
              subst h1
              rw [Flag.parse_pos]
              have h1 := (hex hfe).1
              omega
          · rw [if_neg hfe]; exact hlt
        by_cases hrest : rest = []
        · rw [if_pos hrest]
          refine pairwise_pos_snoc _ _ hpushed ?_
          intro g hg
          have : ({ name := arg, arg := "", pos := position, mod := 0 } : Flag).parse.pos
              = position := by rw [Flag.parse_pos]
          rw [this]
          exact hpushedlt g hg
        · rw [if_neg hrest]
          refine ih (position + 1) _ _ hpushed ?_ ?_ ?_
          · intro g hg
            exact Nat.lt_succ_of_lt (hpushedlt g hg)
          · intro _
            exact ⟨rfl, hpushedlt⟩
          · intro hne
            exfalso
            simp [Flag.exists_, harg] at hne
      · rw [if_neg hft]
        by_cases hrest : rest = []
        · rw [if_pos hrest]
          by_cases hfe : flag.exists_ = true
          · rw [if_pos hfe]
            exact pairwise_pos_snoc flags _ hp
              (by rw [Flag.parse_pos]; exact (hex hfe).2)
          · rw [if_neg hfe]
            rw [hnex (by simpa using hfe)]
            simp
        · rw [if_neg hrest]
          by_cases hfe : flag.exists_ = true
          · rw [if_pos hfe]
            refine ih position _ flags hp hlt ?_ ?_
            · intro _
              exact ⟨(hex hfe).1, (hex hfe).2⟩
            · intro hne
              simp only [Flag.exists_] at hne hfe
              rw [hfe] at hne
              exact absurd hne (by simp)
          · rw [if_neg hfe]
            exact ih position flag flags hp hlt hex hnex

/-- The from_vec_string loop ignores a run of empty tokens entirely (the
empty-token `continue` also skips the end-of-input push). -/
lemma fvsGo_all_empty (xs : List String) :
    ∀ (position : Nat) (flag : Flag) (flags : List Flag),
      (∀ x ∈ xs, x = "") → fvsGo position flag flags xs = flags := by
  induction xs with
  | nil => intro _ _ _ _; rfl
  | cons a rest ih =>
    intro position flag flags h
    have ha : a = "" := h a (List.mem_cons_self a rest)
    rw [fvsGo, if_pos ha]
    exact ih position flag flags (fun x hx => h x (List.mem_cons_of_mem a hx))

/-- C7: for every raw token sequence the produced Flags have strictly
increasing positions, matching their left-to-right appearance (which also
gives the weaker claim that positions never decrease from one Flag to the
next). -/
theorem c7_positions_strictly_increasing (xs : List String) :
    List.Pairwise (fun f g => f.pos < g.pos) (Instruction.from_vec_string xs).flags := by
  unfold Instruction.from_vec_string
  refine fvsGo_pairwise xs 0 Flag.empty [] (by simp) (by simp) ?_ (fun _ => rfl)
  intro h
  exfalso
  simp [Flag.empty, Flag.exists_] at h

/-- C6 counterexample: the builder does not behave as claimed at explicit
inputs.  A trailing empty token loses the pending flag "-w" (the empty-token
skip jumps past the end-of-input push), so ["-w", ""] yields an empty
Instruction; a leading empty token does not force an empty Instruction
(["", "-w"] still parses "-w"); and a flagless non-empty final token is
pushed as a nameless Flag instead of being discarded (["x"] yields one flag
named ""). -/
theorem c6_counterexample :
    (Instruction.from_vec_string ["-w", ""]).flags = []
      ∧ (Instruction.from_vec_string ["", "-w"]).flags.map Flag.name = ["-w"]
      ∧ (Instruction.from_vec_string ["x"]).flags.map Flag.name = [""] :=
  ⟨rfl, rfl, rfl⟩

/-- C6 amended: empty tokens are skipped entirely, including by the
end-of-input finalize check, so a token sequence consisting of empty tokens
only yields an empty Instruction while a trailing empty token drops the flag
under construction (["-w", ""] parses to nothing); and when the final token
is non-empty the finalize-push fires even with no flag under construction,
so a lone non-flag token yields a single nameless Flag rather than being
discarded. -/
theorem c6_amended :
    (∀ xs : List String, (∀ x ∈ xs, x = "") → (Instruction.from_vec_string xs).flags = [])
      ∧ (Instruction.from_vec_string ["-w", ""]).flags = []
      ∧ (∀ x : String, x ≠ "" → isFlagToken x = false →
          (Instruction.from_vec_string [x]).flags.map Flag.name = [""]) := by
  refine ⟨?_, rfl, ?_⟩
  · intro xs h
    unfold Instruction.from_vec_string
    exact congrArg Instruction.flags (congrArg Instruction.mk (fvsGo_all_empty xs 0 Flag.empty [] h))
  · intro x hx hft
    unfold Instruction.from_vec_string
    rw [fvsGo, if_neg hx, if_neg (by rw [hft]; exact Bool.false_ne_true)]
    simp [Flag.empty, Flag.exists_, Flag.parse]

/-- C6 witness: the amended claim applied at concrete inputs. -/
theorem c6_witness :
    (Instruction.from_vec_string ["", ""]).flags = []
      ∧ (Instruction.from_vec_string ["x"]).flags.map Flag.name = [""] :=
  ⟨c6_amended.1 ["", ""] (by decide), c6_amended.2.2 "x" (by decide) (by decide)⟩

/-- Rendering a single error output. -/
lemma renderOutputs_single_err (m : String) (h : m ≠ "") :
    renderOutputs [Output.new_err m] = "[ERROR]: " ++ m ++ "\n" := by
  simp only [renderOutputs, Output.new_err, Output.get_message, Output.is_ok]
  rw [if_neg h, string_append_empty]
  rfl

/-- Rendering two error outputs. -/
lemma renderOutputs_two_err (m1 m2 : String) (h1 : m1 ≠ "") (h2 : m2 ≠ "") :
    renderOutputs [Output.new_err m1, Output.new_err m2]
      = ("[ERROR]: " ++ m1 ++ "\n") ++ ("[ERROR]: " ++ m2 ++ "\n") := by
  simp only [renderOutputs, Output.new_err, Output.get_message, Output.is_ok]
  rw [if_neg h1, if_neg h2, string_append_empty]
  rfl

/-- C10: during rendering every accumulated Output with a non-empty message
contributes exactly one line; the line is labelled "[SUCCESS]" precisely
when the tag is Ok and "[ERROR]" for every other tag — Err and Undefined
alike (grab_output branches only on is_ok). -/
theorem c10_nonok_rendered_as_error (pre post : List Output) (res : Result) (msg : String)
    (h : msg ≠ "") :
    renderOutputs (pre ++ ⟨res, msg⟩ :: post)
      = renderOutputs pre
        ++ ((if res = Result.Ok then "[SUCCESS]" else "[ERROR]") ++ ": " ++ msg ++ "\n")
        ++ renderOutputs post := by
  induction pre with
  | nil =>
    simp only [List.nil_append, renderOutputs, Output.get_message, Output.is_ok]
    rw [if_neg h, string_empty_append]
    by_cases hres : res = Result.Ok
    · rw [if_pos hres, if_pos (by simp [hres])]
    · rw [if_neg hres, if_neg (by simp [hres])]
  | cons o rest ih =>
    simp only [List.cons_append, renderOutputs, List.append_eq, ih, string_append_assoc]

/-- C10 witness: an Undefined-tagged output with a non-empty message is
rendered with the "[ERROR]" label. -/
theorem c10_witness : renderOutputs [⟨Result.Undefined, "x"⟩] = "[ERROR]: x\n" := by
  have h := c10_nonok_rendered_as_error [] [] Result.Undefined "x" (by decide)
  exact h.trans (by decide)

/-- C5 counterexample: with the input flag accompanied by another flag the
run does abort with a single line, but the line carries the "<ENGINE> "
prefix the claim omits — here even with an existing, valid cmds.txt. -/
theorem c5_counterexample :
    (engineExecute (fun name => if name = "cmds.txt" then some "-w" else none)
        freshEngineState ["-i", "cmds.txt", "-w"]).1
      = "[ERROR]: <ENGINE> Input file flag should be the only one!\n"
      ∧ "[ERROR]: <ENGINE> Input file flag should be the only one!\n"
          ≠ "[ERROR]: Input file flag should be the only one!\n" :=
  ⟨rfl, by decide⟩

/-- C5 amended: whenever the Instruction contains the input-file flag (by
short or long name) together with at least one other flag, the run aborts
before validation — regardless of the file system — with the single report
line "[ERROR]: <ENGINE> Input file flag should be the only one!". -/
theorem c5_amended (fm : FileModel) (raw_args : List String)
    (hflag : (Instruction.from_vec_string raw_args).flag_exists "-i" "--input" = true)
    (hsize : 2 ≤ (Instruction.from_vec_string raw_args).size) :
    (engineExecute fm freshEngineState raw_args).1
      = "[ERROR]: <ENGINE> Input file flag should be the only one!\n" := by
  have hne : (Instruction.from_vec_string raw_args).size ≠ 1 := by omega
  simp only [engineExecute, engineResolveInstruction, hflag, if_true, if_pos hne,
    freshEngineState, initOperations, grabOutput, List.nil_append]
  rw [if_neg (by simp)]
  exact renderOutputs_single_err _ (by decide) |>.trans (by decide)

/-- C5 witness: the amended claim applied at a concrete run. -/
theorem c5_witness :
    (engineExecute (fun _ => none) freshEngineState ["-i", "a", "-w"]).1
      = "[ERROR]: <ENGINE> Input file flag should be the only one!\n" :=
  c5_amended (fun _ => none) ["-i", "a", "-w"] (by decide) (by decide)

/-- Parsing ["-f", path, tok] where path is a non-empty non-flag token and
the final token is a flag token: two flags at positions 0 and 1. -/
lemma from_vec_f_path_flag (fpath n : String) (hp1 : fpath ≠ "")
    (hp2 : isFlagToken fpath = false) (hn1 : isFlagToken n = true) :
    Instruction.from_vec_string ["-f", fpath, n]
      = ⟨[⟨"-f", fpath, 0, 0⟩, ⟨n, "", 1, 0⟩]⟩ := by
  have hne := isFlagToken_ne_empty n hn1
  have hsp : fpath ++ " " ≠ "" := ne_empty_append_right fpath " " (by decide)
  simp +decide [Instruction.from_vec_string, fvsGo, hp1, hp2, hn1, hne, hsp,
    Flag.exists_, Flag.empty, Flag.parse, strDropLast_append_space, string_empty_append]

/-- Parsing a single flag token: one flag at position 0. -/
lemma from_vec_single_flag (n : String) (hn1 : isFlagToken n = true) :
    Instruction.from_vec_string [n] = ⟨[⟨n, "", 0, 0⟩]⟩ := by
  have hne := isFlagToken_ne_empty n hn1
  simp +decide [Instruction.from_vec_string, fvsGo, hn1, hne,
    Flag.exists_, Flag.empty, Flag.parse]

/-- C3 counterexample: with a valid source bound the unknown-flag run aborts
with one line, but that line carries the "<ENGINE> " prefix the claim omits;
and when an earlier flag fails validation first, an unmatched flag in the
Instruction does not surface at all (the -a run aborts on the last-position
error instead). -/
theorem c3_counterexample :
    ((engineExecute (fun name => if name = "f.txt" then some "x" else none)
        freshEngineState ["-f", "f.txt", "-z"]).1
      = "[ERROR]: <ENGINE> Invalid flag: [-z]\n")
      ∧ "[ERROR]: <ENGINE> Invalid flag: [-z]\n" ≠ "[ERROR]: Invalid flag: [-z]\n"
      ∧ ((engineExecute (fun name => if name = "f.txt" then some "x" else none)
          freshEngineState ["-f", "f.txt", "-a", "x", "-z"]).1
        = "[ERROR]: <-a> This flag should be the last one\n") :=
  ⟨rfl, by decide, rfl⟩

/-- C3 amended: when the validation pass reaches a flag matching no
registered command while the source was bound by a preceding -f flag (the
reachability condition: every earlier flag resolved and validated), the
rendered report is exactly the single line
"[ERROR]: <ENGINE> Invalid flag: [<name>]". -/
theorem c3_amended (fm : FileModel) (fpath content n : String)
    (hfm : fm fpath = some content) (hp1 : fpath ≠ "") (hp2 : isFlagToken fpath = false)
    (hn1 : isFlagToken n = true) (hres : resolve n = none)
    (hni : n ≠ "-i") (hninput : n ≠ "--input") :
    (engineExecute fm freshEngineState ["-f", fpath, n]).1
      = "[ERROR]: " ++ ("<ENGINE> Invalid flag: [" ++ n ++ "]") ++ "\n" := by
  have hinst := from_vec_f_path_flag fpath n hp1 hp2 hn1
  have hfe2 : (⟨[⟨"-f", fpath, 0, 0⟩, ⟨n, "", 1, 0⟩]⟩ : Instruction).flag_exists
      "-i" "--input" = false := by
    simp +decide [Instruction.flag_exists, hni, hninput]
  have hmsg : ("<ENGINE> Invalid flag: [" ++ n ++ "]") ≠ "" :=
    ne_empty_append_left ("<ENGINE> Invalid flag: [" ++ n) "]"
      (ne_empty_append_left "<ENGINE> Invalid flag: [" n (by decide))
  simp only [engineExecute, engineResolveInstruction, hinst, hfe2, Bool.false_eq_true,
    if_false, engineMain, Instruction.size, List.length_cons, List.length_nil]
  simp only [validateLoop, List.get?, freshEngineState]
  have hr1 : resolve "-f" = some Cmd.sourceFile := by decide
  simp +decide [hr1, hres, cmdValidate, hp1, fileExists, hfm, read_unchecked,
    initOperations, Output.is_err, Output.new_ok, updateValidated, Output.new_err,
    grabOutput, hmsg]
  exact renderOutputs_single_err _ hmsg

/-- C3 witness: the amended claim applied at a concrete run. -/
theorem c3_witness :
    (engineExecute (fun name => if name = "g.txt" then some "hello" else none)
        freshEngineState ["-f", "g.txt", "-q"]).1
      = "[ERROR]: " ++ ("<ENGINE> Invalid flag: [" ++ "-q" ++ "]") ++ "\n" :=
  c3_amended (fun name => if name = "g.txt" then some "hello" else none)
    "g.txt" "hello" "-q" rfl (by decide) (by decide) (by decide) (by decide)
    (by decide) (by decide)

/-- C4 counterexample: a run that panics on an unresolvable flag with no
source bound additionally receives the "Source file is invalid" error — the
source-readiness check at the end of the validation pass is not guarded by
the panic flag, so the report has two lines where the claim allows one. -/
theorem c4_counterexample :
    (engineExecute (fun _ => none) freshEngineState ["-z"]).1
      = "[ERROR]: <ENGINE> Invalid flag: [-z]\n[ERROR]: <ENGINE> Source file is invalid!\n" :=
  rfl

/-- C4 amended: after the validation loop the source-readiness check runs
regardless of panic: whenever neither the source text nor the input-file
path was populated the "Source file is invalid!" error is appended — in
particular a run that panicked on an unresolved flag with no source reports
both the resolution error and the source error. -/
theorem c4_amended (fm : FileModel) (n : String)
    (hn1 : isFlagToken n = true) (hres : resolve n = none)
    (hni : n ≠ "-i") (hninput : n ≠ "--input") :
    (engineExecute fm freshEngineState [n]).1
      = ("[ERROR]: " ++ ("<ENGINE> Invalid flag: [" ++ n ++ "]") ++ "\n")
        ++ "[ERROR]: <ENGINE> Source file is invalid!\n" := by
  have hinst := from_vec_single_flag n hn1
  have hfe2 : (⟨[⟨n, "", 0, 0⟩]⟩ : Instruction).flag_exists "-i" "--input" = false := by
    simp +decide [Instruction.flag_exists, hni, hninput]
  have hmsg : ("<ENGINE> Invalid flag: [" ++ n ++ "]") ≠ "" :=
    ne_empty_append_left ("<ENGINE> Invalid flag: [" ++ n) "]"
      (ne_empty_append_left "<ENGINE> Invalid flag: [" n (by decide))
  simp only [engineExecute, engineResolveInstruction, hinst, hfe2, Bool.false_eq_true,
    if_false, engineMain, Instruction.size, List.length_cons, List.length_nil]
  simp only [validateLoop, List.get?, freshEngineState]
  simp +decide [hres, initOperations, Output.new_err, grabOutput, hmsg]
  exact (renderOutputs_two_err _ _ hmsg (by decide)).trans rfl

/-- C4 witness: the amended claim applied at a concrete run. -/
theorem c4_witness :
    (engineExecute (fun _ => none) freshEngineState ["-y"]).1
      = ("[ERROR]: " ++ ("<ENGINE> Invalid flag: [" ++ "-y" ++ "]") ++ "\n")
        ++ "[ERROR]: <ENGINE> Source file is invalid!\n" :=
  c4_amended (fun _ => none) "-y" (by decide) (by decide) (by decide) (by decide)

/-- C2 counterexample: with the source bound to "dd a ccc" (words of
differing lengths), the flag sequence -s -l does not produce the words
sorted by length: -l modifies the flag at position pos+1, so as the last
flag it fails validation and the run aborts with an error line — which
moreover carries the "<-l> " prefix the claim omits. -/
theorem c2_counterexample :
    ((engineExecute (fun name => if name = "f.txt" then some "dd a ccc" else none)
        freshEngineState ["-f", "f.txt", "-s", "-l"]).1
      = "[ERROR]: <-l> This flag can't be the last one!\n")
      ∧ "[ERROR]: <-l> This flag can't be the last one!\n"
          ≠ "[ERROR]: This flag can't be the last one!\n" :=
  ⟨rfl, by decide⟩

/-- C2 amended: the by-length modifier must precede the sorting flag: with
the source bound to "dd a ccc", the sequence -l -s reports the source words
ascending by length (a, dd, ccc — not the lexicographic a, ccc, dd), while
the sequence -s -l and -l as the final flag each abort with the single line
"[ERROR]: <-l> This flag can't be the last one!". -/
theorem c2_amended :
    ((engineExecute (fun name => if name = "f.txt" then some "dd a ccc" else none)
        freshEngineState ["-f", "f.txt", "-l", "-s"]).1
      = "[SUCCESS]: <-s> \x7b\n    \"a\",\n    \"dd\",\n    \"ccc\",\n\x7d\n")
      ∧ ((engineExecute (fun name => if name = "f.txt" then some "dd a ccc" else none)
          freshEngineState ["-f", "f.txt", "-s", "-l"]).1
        = "[ERROR]: <-l> This flag can't be the last one!\n")
      ∧ ((engineExecute (fun name => if name = "f.txt" then some "dd a ccc" else none)
          freshEngineState ["-f", "f.txt", "-l"]).1
        = "[ERROR]: <-l> This flag can't be the last one!\n") :=
  ⟨rfl, rfl, rfl⟩

/-- Every path of Engine::execute ends in grab_output. -/
lemma engineExecute_ends_in_grab (fm : FileModel) (st : EngineState)
    (raw_args : List String) :
    ∃ st', engineExecute fm st raw_args = grabOutput st' := by
  unfold engineExecute
  cases hres : engineResolveInstruction fm raw_args with
  | error e =>
    simp only [hres]
    exact ⟨_, rfl⟩
  | ok inst =>
    simp only [hres, engineMain]
    split
    · exact ⟨_, rfl⟩
    · split
      · exact ⟨_, rfl⟩
      · exact ⟨_, rfl⟩

/-- grab_output either resets the engine to the fresh state (no output
file) or returns the empty string (output-file case, where the report went
to the file and the state is kept). -/
lemma grabOutput_resets (st : EngineState) :
    (grabOutput st).2 = freshEngineState ∨ (grabOutput st).1 = "" := by
  unfold grabOutput
  split
  · exact Or.inr rfl
  · exact Or.inl rfl

/-- C8: the engine is deterministic over the file system and the raw token
sequence: two runs, each from a fresh engine state (fresh Outputs list and
Operations), return the same report string.  Moreover a run either hands
the engine back in the fresh state (grab_output clears it) or returns the
empty string because the report went to the configured output file — so the
fresh-state precondition is re-established for a rerun whose report is
returned. -/
theorem c8_idempotent (fm : FileModel) (raw_args : List String) (s1 s2 : EngineState)
    (h1 : s1 = freshEngineState) (h2 : s2 = freshEngineState) :
    (engineExecute fm s1 raw_args).1 = (engineExecute fm s2 raw_args).1
      ∧ ((engineExecute fm s1 raw_args).2 = freshEngineState
          ∨ (engineExecute fm s1 raw_args).1 = "") := by
  subst h1
  subst h2
  refine ⟨rfl, ?_⟩
  obtain ⟨st', hst⟩ := engineExecute_ends_in_grab fm freshEngineState raw_args
  rw [hst]
  exact grabOutput_resets st'

/-- C8 witness: the idempotence claim applied at a concrete run. -/
theorem c8_witness :
    (engineExecute (fun _ => none) freshEngineState ["-w"]).1
      = (engineExecute (fun _ => none) freshEngineState ["-w"]).1
      ∧ ((engineExecute (fun _ => none) freshEngineState ["-w"]).2 = freshEngineState
          ∨ (engineExecute (fun _ => none) freshEngineState ["-w"]).1 = "") :=
  c8_idempotent (fun _ => none) ["-w"] freshEngineState freshEngineState rfl rfl

/-- Overwriting an existing key of the validated map or appending a new one
keeps the keys duplicate-free. -/
lemma updateValidated_keys_nodup (v : List (Cmd × Flag)) (c : Cmd) (f : Flag)
    (h : (v.map Prod.fst).Nodup) : ((updateValidated v c f).map Prod.fst).Nodup := by
  unfold updateValidated
  split
  · have hkeys : (v.map (fun p => if p.1 = c then (c, f) else p)).map Prod.fst
        = v.map Prod.fst := by
      rw [List.map_map]
      refine List.map_congr_left ?_
      intro p _
      by_cases hp : p.1 = c
      · simp [hp]
      · simp [hp]
    rw [hkeys]
    exact h
  · rename_i hany
    have hnotin : c ∉ v.map Prod.fst := by
      intro hc
      apply hany
      obtain ⟨p, hp, hpc⟩ := List.mem_map.mp hc
      rw [List.any_eq_true]
      exact ⟨p, hp, by simp [hpc]⟩
    rw [List.map_append]
    exact List.nodup_append.mpr ⟨h, by simp, by
      intro a ha hb
      simp only [List.map_cons, List.map_nil, List.mem_singleton] at hb
      subst hb
      exact hnotin ha⟩

/-- The validation loop preserves duplicate-freedom of the validated keys. -/
lemma validateLoop_keys_nodup (fm : FileModel) :
    ∀ (fuel i : Nat) (inst : Instruction) (ops : Operations) (outs : List Output)
      (v : List (Cmd × Flag)), (v.map Prod.fst).Nodup →
      (((validateLoop fm fuel i inst ops outs v).2.2).map Prod.fst).Nodup := by
  intro fuel
  induction fuel with
  | zero => intro i inst ops outs v h; exact h
  | succ fuel ih =>
    intro i inst ops outs v h
    rw [validateLoop]
    cases hflag : inst.flags.get? i with
    | none =>
      simp only [hflag]
      exact h
    | some flag =>
      simp only [hflag]
      cases hres : resolve flag.name with
      | none =>
        simp only [hres]
        exact h
      | some c =>
        simp only [hres]
        by_cases herr : (cmdValidate c fm flag inst ops).1.is_err = true
        · simp only [herr, if_true]
          exact h
        · simp only [Bool.not_eq_true] at herr
          simp only [herr, Bool.false_eq_true, if_false]
          exact ih _ _ _ _ _ (updateValidated_keys_nodup v c flag h)

/-- Replacing the value of a present key makes find? return the new pair. -/
lemma find_map_update (c : Cmd) (f : Flag) :
    ∀ v : List (Cmd × Flag), v.any (fun p => p.1 = c) = true →
      (v.map (fun p => if p.1 = c then (c, f) else p)).find? (fun p => p.1 = c)
        = some (c, f) := by
  intro v
  induction v with
  | nil => intro h; simp at h
  | cons p rest ih =>
    intro h
    by_cases hp : p.1 = c
    · simp [List.find?, hp]
    · have hrest : rest.any (fun p => p.1 = c) = true := by
        simp only [List.any_cons, Bool.or_eq_true, decide_eq_true_eq] at h
        rcases h with h | h
        · exact absurd h hp
        · exact h
      simp only [List.map_cons, if_neg hp, List.find?]
      rw [decide_eq_false hp]
      exact ih hrest

/-- The validated map records the flag written last for a command. -/
lemma lookup_updateValidated_self (v : List (Cmd × Flag)) (c : Cmd) (f : Flag) :
    lookupValidated (updateValidated v c f) c = some f := by
  unfold lookupValidated updateValidated
  split
  · rename_i hany
    rw [find_map_update c f v hany]
    rfl
  · rename_i hany
    have hnone : v.find? (fun p => p.1 = c) = none := by
      rw [List.find?_eq_none]
      intro p hp hpc
      apply hany
      rw [List.any_eq_true]
      exact ⟨p, hp, hpc⟩
    rw [List.find?_append, hnone]
    simp [List.find?]

/-- C9: the execution pass touches each registered command at most once
even when several flags resolved to it: the validated map is keyed by
command (duplicate-free keys), assignment overwrites so the flag recorded
for a command is the one validated last, and the execution loop runs
exactly once over the map entries, keeping the non-empty Outputs in order. -/
theorem c9_execute_once_with_last_flag (fm : FileModel) (st : EngineState)
    (raw_args : List String) (c : Cmd) :
    ((engineValidated fm st raw_args).map Prod.fst).count c ≤ 1
      ∧ (∀ (v : List (Cmd × Flag)) (f : Flag),
          lookupValidated (updateValidated v c f) c = some f)
      ∧ (∀ (ops : Operations) (outs : List Output) (v : List (Cmd × Flag)),
          execLoop fm ops outs v
            = outs ++ (v.map (fun p => cmdExecute p.1 fm p.2 ops)).filter
                (fun o => o.msg ≠ "")) := by
  refine ⟨?_, fun v f => lookup_updateValidated_self v c f, ?_⟩
  · have hnd : ((engineValidated fm st raw_args).map Prod.fst).Nodup := by
      unfold engineValidated
      cases engineResolveInstruction fm raw_args with
      | error e => simp
      | ok inst => exact validateLoop_keys_nodup fm _ _ _ _ _ _ (by simp)
    exact List.nodup_iff_count_le_one.mp hnd c
  · intro ops outs v
    induction v generalizing outs with
    | nil => simp [execLoop]
    | cons p rest ih =>
      obtain ⟨pc, pf⟩ := p
      rw [execLoop]
      by_cases hm : (cmdExecute pc fm pf ops).msg = ""
      · simp [hm, ih]
      · simp [hm, ih, List.append_assoc]

end PJAText2
